import Mathlib

/-!
Shallow embedding of the flame-graph keyboard navigation component
(FlameGraphImpl in the flame-graph view) and of the thread stack graph
(ThreadStackGraph in components/shared/thread/StackGraph.js) of the
profiler repository, together with theorems settling the claims about
their behaviour.

Conventions of the embedding:
- JavaScript array reads `a[i]` that may fall outside the array return
  `undefined`; we model element reads with `Option` (`none` plays the
  role of both `undefined` and `null`).
- Fractional times (the unit-interval start/end offsets of flame graph
  boxes) are modelled as rationals.
- Each event handler is modelled as a pure function from the component
  props and the event data to the list of Redux actions it dispatches,
  in dispatch order.
- Identifiers keep the source names except where the source name is not
  a usable Lean identifier: the leading underscore of private methods is
  dropped, the parent-pointer column of the call node table (which the
  source spells with the reserved word that means `pre` + `fix`) is
  named `parentCol`, and the `end` column of a timing row is `endCol`.
-/

namespace Profiler

/-- A row of `FlameGraphTiming`: parallel arrays giving, for every box at
this depth, its start offset, end offset and call node index.  The source
type has the fields `start`, `end`, `selfRelative` and `callNode`; only
the three fields used by the component are modelled. -/
structure TimingRow where
  start : List ℚ
  endCol : List ℚ
  callNode : List ℕ
deriving Repr, DecidableEq

/-- `FlameGraphTiming`: one `TimingRow` per depth. -/
def FlameGraphTiming := List TimingRow

/-- The call node table: structure-of-arrays with, for every call node
index, its parent call node (`-1` at a root; field `parentCol` here), its
depth and its function index.  Only the columns the component reads are
modelled. -/
structure CallNodeTable where
  parentCol : List ℤ
  depth : List ℕ
  func : List ℕ
deriving Repr, DecidableEq

/-- The slice of the external `CallTree` collaborator that the component
calls: children of a node (sorted by descending total time, a guarantee
of the external call-tree code that is outside this fragment) and the
bottom box info of a node (kept abstract as a number). -/
structure CallTree where
  getChildren : ℕ → List ℕ
  getBottomBoxInfoForCallNode : ℕ → ℕ

/-- The Redux actions the component can dispatch.  `changeSelectedCallNode`
carries the threads key and the call node path; `consoleErrorUnknownKey`
models the `console.error` call of the default switch branch and carries
the offending key. -/
inductive Action where
  | changeSelectedCallNode (threadsKey : ℕ) (path : List ℕ)
  | changeRightClickedCallNode (threadsKey : ℕ) (path : List ℕ)
  | handleCallNodeTransformShortcut (key : String) (threadsKey : ℕ) (nodeIndex : ℕ)
  | updateBottomBoxContentsAndMaybeOpen (source : String) (bottomBoxInfo : ℕ)
  | consoleErrorUnknownKey (key : String)
deriving Repr, DecidableEq

/-- The props of `FlameGraphImpl` that `_handleKeyDown`,
`_nextSelectableInRow`, `_wideEnough` and `_onCallNodeEnterOrDoubleClick`
read. -/
structure FlameGraphProps where
  threadsKey : ℕ
  callTree : CallTree
  callNodeTable : CallNodeTable
  flameGraphTiming : List TimingRow
  selectedCallNodeIndex : Option ℕ
  rightClickedCallNodeIndex : Option ℕ

/-- How wide a call node box needs to be to be selectable with keyboard
navigation; a fraction of the viewport (source constant
`SELECTABLE_THRESHOLD = 0.001`). -/
def SELECTABLE_THRESHOLD : ℚ := 1 / 1000

/-- JavaScript array read `l[i]` with a possibly negative index:
`undefined` (`none`) outside the array. -/
def jsGet {α : Type} (l : List α) (i : ℤ) : Option α :=
  if 0 ≤ i then l[i.toNat]? else none

/-- JavaScript `l.indexOf x`: index of the first occurrence, `-1` when
absent. -/
def jsIndexOf (l : List ℕ) (x : ℕ) : ℤ :=
  match l.findIdx? (fun y => y == x) with
  | some i => (i : ℤ)
  | none => -1

/-- The guard `row.end[i] - row.start[i] > SELECTABLE_THRESHOLD` of
`_wideEnough` and of the loop in `_nextSelectableInRow`.  When either
read is `undefined` the JavaScript subtraction yields `NaN` and the
comparison is false, which is the `none` branch here. -/
def boxWide (row : TimingRow) (i : ℤ) : Bool :=
  match jsGet row.endCol i, jsGet row.start i with
  | some e, some s => decide (e - s > SELECTABLE_THRESHOLD)
  | _, _ => false

/-- Source method `_wideEnough`: is the box of this call node wide enough
to be selected?  Looks up the depth of the node, its row, its column in
that row, and compares the box width against the threshold.  (The two
leading lookups cannot fail on the well-formed props React supplies; on a
malformed table the source would throw where this returns `false`.) -/
def wideEnough (callNodeTable : CallNodeTable) (flameGraphTiming : List TimingRow)
    (callNodeIndex : ℕ) : Bool :=
  match callNodeTable.depth[callNodeIndex]? with
  | none => false
  | some depth =>
    match flameGraphTiming[depth]? with
    | none => false
    | some row =>
      let columnIndex := jsIndexOf row.callNode callNodeIndex
      boxWide row columnIndex

/-- The do/while loop of `_nextSelectableInRow`, with explicit fuel.  Each
iteration advances `columnIndex` by `direction`, reads the call node at
the new column (`undefined` outside the row), breaks returning it when the
box there is wide enough, and otherwise continues while the call node read
is defined.  The fuel only bounds the iteration count; the theorem about
the loop shows that `row.callNode.length` iterations always suffice when
`direction` is `1` or `-1`, so the `0` fallback (returning `none`, as the
loop does when it runs off the row) is never reached from
`nextSelectableInRow`. -/
def nextSelectableLoop (row : TimingRow) (direction : ℤ) :
    ℤ → ℕ → Option ℕ
  | _, 0 => none
  | columnIndex, fuel + 1 =>
    if boxWide row (columnIndex + direction) then
      jsGet row.callNode (columnIndex + direction)
    else
      match jsGet row.callNode (columnIndex + direction) with
      | none => none
      | some _ => nextSelectableLoop row direction (columnIndex + direction) fuel

/-- Source method `_nextSelectableInRow`: next keyboard-selectable call
node index along one horizontal direction (`-1` left, `1` right) from the
given starting call node; `none` (source: `undefined`) when every
candidate box up to the row boundary is too narrow.  The starting column
is found with `indexOf` over the callNode array of the row at the
starting node depth.  (The depth and row lookups cannot fail on the
well-formed props React supplies.) -/
def nextSelectableInRow (callNodeTable : CallNodeTable)
    (flameGraphTiming : List TimingRow) (startingCallNodeIndex : ℕ)
    (direction : ℤ) : Option ℕ :=
  match callNodeTable.depth[startingCallNodeIndex]? with
  | none => none
  | some depth =>
    match flameGraphTiming[depth]? with
    | none => none
    | some row =>
      let columnIndex := jsIndexOf row.callNode startingCallNodeIndex
      nextSelectableLoop row direction columnIndex (row.callNode.length + 1)

/-- Modelled from the spec: `getCallNodePathFromIndex` lives in
profile-logic/profile-data, which is not part of this fragment; the spec
describes the call node table as having a per-index parent pointer and a
per-index function, and a call node path is the list of function indices
from the root down to the node, following parent pointers.  The fuel
bounds the walk by the table size; real tables have acyclic parent
pointers with parents below their children, so the fuel is never
exhausted there.  A negative index (the `null` / `-1` cases of the
source) yields the empty path. -/
def callNodePathAux (callNodeTable : CallNodeTable) : ℕ → ℤ → List ℕ
  | 0, _ => []
  | fuel + 1, i =>
    if 0 ≤ i then
      match callNodeTable.func[i.toNat]? with
      | none => []
      | some f =>
        callNodePathAux callNodeTable fuel
          ((callNodeTable.parentCol[i.toNat]?).getD (-1)) ++ [f]
    else []

/-- Modelled from the spec: see `callNodePathAux`. -/
def getCallNodePathFromIndex (callNodeIndex : ℤ)
    (callNodeTable : CallNodeTable) : List ℕ :=
  callNodePathAux callNodeTable (callNodeTable.func.length + 1) callNodeIndex

/-- Source method `_onCallNodeEnterOrDoubleClick`: a `null` call node
index dispatches nothing; otherwise dispatch one
`updateBottomBoxContentsAndMaybeOpen` action tagged with source
`flame-graph` and carrying the bottom box info of the node from the call
tree. -/
def onCallNodeEnterOrDoubleClick (callTree : CallTree)
    (callNodeIndex : Option ℕ) : List Action :=
  match callNodeIndex with
  | none => []
  | some c =>
    [Action.updateBottomBoxContentsAndMaybeOpen ("flame-graph")
      (callTree.getBottomBoxInfoForCallNode c)]

/-- The `nodeIndex` computed by the non-arrow part of `_handleKeyDown`:
the right-clicked call node when there is one, else the selected call
node. -/
def keyDownTargetNode (p : FlameGraphProps) : Option ℕ :=
  match p.rightClickedCallNodeIndex with
  | some r => some r
  | none => p.selectedCallNodeIndex

/-- The membership test at the top of `_handleKeyDown`: is the event key
in the four-element arrow key array (the source calls `includes` on the
array literal)? -/
def isArrowKey (key : String) : Bool :=
  (["ArrowDown", "ArrowUp", "ArrowLeft", "ArrowRight"] : List String).contains key

/-- Source method `_handleKeyDown`, as a function from the props and the
event key to the list of dispatched actions.  Arrow keys with no prior
selection select the root path; with a selection, ArrowDown moves to the
parent (when not `-1`), ArrowUp to the first (widest) child when its box
is wide enough, ArrowLeft/ArrowRight to the next selectable box in the
row; the default switch branch logs an unknown-key error.  Non-arrow keys
target the right-clicked node, else the selected node; with no target
nothing is dispatched; Enter opens the bottom box and any other key is
forwarded to `handleCallNodeTransformShortcut`.  (In the ArrowDown branch
the parent read cannot fall outside the table on the well-formed props
React supplies, so the out-of-bounds `none` case is unreachable there.) -/
def handleKeyDown (p : FlameGraphProps) (key : String) : List Action :=
  if isArrowKey key then
    match p.selectedCallNodeIndex with
    | none =>
      [Action.changeSelectedCallNode p.threadsKey
        (getCallNodePathFromIndex 0 p.callNodeTable)]
    | some selected =>
      if key = "ArrowDown" then
        match p.callNodeTable.parentCol[selected]? with
        | none => []
        | some parent =>
          if parent ≠ -1 then
            [Action.changeSelectedCallNode p.threadsKey
              (getCallNodePathFromIndex parent p.callNodeTable)]
          else []
      else if key = "ArrowUp" then
        match (p.callTree.getChildren selected).head? with
        | none => []
        | some callNodeIndex =>
          if wideEnough p.callNodeTable p.flameGraphTiming callNodeIndex then
            [Action.changeSelectedCallNode p.threadsKey
              (getCallNodePathFromIndex callNodeIndex p.callNodeTable)]
          else []
      else if key = "ArrowLeft" ∨ key = "ArrowRight" then
        match nextSelectableInRow p.callNodeTable p.flameGraphTiming selected
            (if key = "ArrowLeft" then -1 else 1) with
        | none => []
        | some callNodeIndex =>
          [Action.changeSelectedCallNode p.threadsKey
            (getCallNodePathFromIndex callNodeIndex p.callNodeTable)]
      else
        [Action.consoleErrorUnknownKey key]
  else
    match keyDownTargetNode p with
    | none => []
    | some nodeIndex =>
      if key = "Enter" then
        onCallNodeEnterOrDoubleClick p.callTree (some nodeIndex)
      else
        [Action.handleCallNodeTransformShortcut key p.threadsKey nodeIndex]

/-- Source method `_heightFunction` of `ThreadStackGraph`: the height of a
sample is `null` when its entry in `sampleCallNodes` is `null`, and the
depth of its call node otherwise.  (A sample index or call node index
outside the arrays would read `undefined` in the source; both are `none`
here, and the theorems assume in-bounds data.) -/
def heightFunction (callNodeTable : CallNodeTable)
    (sampleCallNodes : List (Option ℕ)) (sampleIndex : ℕ) : Option ℕ :=
  match sampleCallNodes[sampleIndex]? with
  | none => none
  | some none => none
  | some (some callNodeIndex) => callNodeTable.depth[callNodeIndex]?

/-- The `maxDepth` loop of `ThreadStackGraph.render`, whose result is
passed to `ThreadHeightGraph` as `maxValue`: fold over the depth column
keeping the largest value seen, starting from 0. -/
def stackGraphMaxValue (callNodeTable : CallNodeTable) : ℕ :=
  callNodeTable.depth.foldl (fun maxDepth d => if d > maxDepth then d else maxDepth) 0

/-- Spec-side transcription of the claimed behaviour of the rightward
scan: step column by column to the right from column `j`, and return the
call node of the first column whose box width (end minus start) exceeds
`SELECTABLE_THRESHOLD`; `none` when the row boundary is reached first.
To be compared with the loop of `nextSelectableInRow`. -/
def firstSelectableRight (row : TimingRow) (j : ℕ) : Option ℕ :=
  if h : j < row.callNode.length then
    if boxWide row (j : ℤ) then jsGet row.callNode (j : ℤ)
    else firstSelectableRight row (j + 1)
  else none
termination_by row.callNode.length - j
decreasing_by simp_wf; omega

/-- Spec-side transcription of the claimed behaviour of the leftward
scan: step column by column to the left from column `j` down to column 0,
and return the call node of the first column whose box width exceeds
`SELECTABLE_THRESHOLD`; `none` when the row boundary is reached first.
To be compared with the loop of `nextSelectableInRow`. -/
def firstSelectableLeft (row : TimingRow) (j : ℕ) : Option ℕ :=
  if boxWide row (j : ℤ) then jsGet row.callNode (j : ℤ)
  else
    match j with
    | 0 => none
    | k + 1 => firstSelectableLeft row k

/-- Leftward scan starting strictly to the left of column `col`:
immediately `none` at the leftmost column. -/
def firstSelectableLeftFrom (row : TimingRow) : ℕ → Option ℕ
  | 0 => none
  | j + 1 => firstSelectableLeft row j

/-- The selection-change dispatch that `_handleKeyDown` performs on an
optional movement result: nothing for `none`, otherwise one
`changeSelectedCallNode` action with the path of the node. -/
def dispatchSelection (p : FlameGraphProps) : Option ℕ → List Action
  | none => []
  | some c =>
    [Action.changeSelectedCallNode p.threadsKey
      (getCallNodePathFromIndex (c : ℤ) p.callNodeTable)]

/-- Recognizer of the unknown-key `console.error` action. -/
def isUnknownKeyErrorAction : Action → Bool
  | Action.consoleErrorUnknownKey _ => true
  | _ => false

/-! Concrete fixture used by the witnesses: a three-node table (root 0
with children 1 and 2), its flame graph timing (row 0 holds the root box
spanning the viewport, row 1 the two half-width child boxes), and a call
tree giving the children in descending total time order. -/

/-- Fixture call node table. -/
def cnt0 : CallNodeTable :=
  { parentCol := [-1, 0, 0], depth := [0, 1, 1], func := [10, 11, 12] }

/-- Fixture timing row at depth 0. -/
def row0 : TimingRow := { start := [0], endCol := [1], callNode := [0] }

/-- Fixture timing row at depth 1. -/
def row1 : TimingRow :=
  { start := [0, 1 / 2], endCol := [1 / 2, 1], callNode := [1, 2] }

/-- Fixture flame graph timing. -/
def timing0 : List TimingRow := [row0, row1]

/-- Fixture call tree. -/
def callTree0 : CallTree :=
  { getChildren := fun i => if i = 0 then [1, 2] else []
    getBottomBoxInfoForCallNode := fun i => i + 100 }

/-- Fixture props with call node 1 selected and nothing right-clicked. -/
def props0 : FlameGraphProps :=
  { threadsKey := 7, callTree := callTree0, callNodeTable := cnt0
    flameGraphTiming := timing0, selectedCallNodeIndex := some 1
    rightClickedCallNodeIndex := none }

/-- Fixture props with the root selected. -/
def propsRoot : FlameGraphProps :=
  { props0 with selectedCallNodeIndex := some 0 }

/-- Fixture props with no selection and nothing right-clicked. -/
def propsNull : FlameGraphProps :=
  { props0 with selectedCallNodeIndex := none }

/-- Fixture props with call node 2 right-clicked (and call node 1
selected). -/
def propsRight : FlameGraphProps :=
  { props0 with rightClickedCallNodeIndex := some 2 }

/-- Fixture sample-to-call-node mapping. -/
def sampleCallNodes0 : List (Option ℕ) := [some 2, none]

/-! Helper lemmas about the JavaScript-style array reads and the scan
loop, shared by the claim theorems. -/

lemma jsGet_natCast {α : Type} (l : List α) (j : ℕ) : jsGet l (j : ℤ) = l[j]? := by
  simp [jsGet]

lemma jsGet_neg {α : Type} (l : List α) {i : ℤ} (h : i < 0) : jsGet l i = none := by
  unfold jsGet
  rw [if_neg (by omega)]

lemma jsGet_none_of_le {α : Type} (l : List α) {i : ℤ} (h : (l.length : ℤ) ≤ i) :
    jsGet l i = none := by
  unfold jsGet
  by_cases h0 : 0 ≤ i
  · rw [if_pos h0, List.getElem?_eq_none (by omega)]
  · rw [if_neg h0]

lemma jsGet_some_bounds {α : Type} {l : List α} {i : ℤ} {x : α}
    (h : jsGet l i = some x) : 0 ≤ i ∧ i.toNat < l.length := by
  unfold jsGet at h
  by_cases h0 : 0 ≤ i
  · rw [if_pos h0] at h
    by_cases hl : i.toNat < l.length
    · exact ⟨h0, hl⟩
    · rw [List.getElem?_eq_none (by omega)] at h
      cases h
  · rw [if_neg h0] at h
    cases h

lemma boxWide_neg (row : TimingRow) {i : ℤ} (h : i < 0) : boxWide row i = false := by
  unfold boxWide
  rw [jsGet_neg _ h, jsGet_neg _ h]

lemma jsIndexOf_lt_length {l : List ℕ} {x : ℕ} {col : ℕ}
    (h : jsIndexOf l x = (col : ℤ)) : col < l.length := by
  unfold jsIndexOf at h
  cases hf : l.findIdx? (fun y => y == x) with
  | none =>
    rw [hf] at h
    simp at h
  | some i =>
    rw [hf] at h
    simp at h
    have hi : i = col := by omega
    subst hi
    exact (List.findIdx?_eq_some_iff_findIdx_eq.mp hf).1

lemma nextSelectableLoop_one (row : TimingRow) :
    ∀ (fuel : ℕ) (col : ℤ), -1 ≤ col → (row.callNode.length : ℤ) ≤ col + fuel →
      nextSelectableLoop row 1 col fuel = firstSelectableRight row (col + 1).toNat := by
  intro fuel
  induction fuel with
  | zero =>
    intro col hcol hlen
    rw [firstSelectableRight]
    rw [dif_neg (by omega)]
    rfl
  | succ fuel ih =>
    intro col hcol hlen
    have hcast : (((col + 1).toNat : ℕ) : ℤ) = col + 1 := Int.toNat_of_nonneg (by omega)
    rw [nextSelectableLoop]
    by_cases hb : boxWide row (col + 1) = true
    · rw [if_pos hb, firstSelectableRight]
      by_cases hlt : (col + 1).toNat < row.callNode.length
      · rw [dif_pos hlt, hcast, if_pos hb]
      · rw [dif_neg hlt]
        exact jsGet_none_of_le _ (by omega)
    · rw [if_neg hb]
      cases hg : jsGet row.callNode (col + 1) with
      | none =>
        have hge : (row.callNode.length : ℤ) ≤ col + 1 := by
          by_contra hcon
          push_neg at hcon
          unfold jsGet at hg
          rw [if_pos (by omega), List.getElem?_eq_getElem (by omega)] at hg
          cases hg
        rw [firstSelectableRight, dif_neg (by omega)]
      | some x =>
        have hlt : (col + 1).toNat < row.callNode.length := (jsGet_some_bounds hg).2
        show nextSelectableLoop row 1 (col + 1) fuel = _
        rw [ih (col + 1) (by omega) (by omega)]
        have hstep : firstSelectableRight row ((col + 1).toNat) =
            firstSelectableRight row ((col + 1).toNat + 1) := by
          rw [firstSelectableRight, dif_pos hlt, hcast, if_neg hb]
        have harg : (col + 1 + 1).toNat = (col + 1).toNat + 1 := by omega
        rw [harg, ← hstep]

lemma nextSelectableLoop_negOne (row : TimingRow) :
    ∀ (fuel : ℕ) (col : ℕ), col < row.callNode.length → col ≤ fuel →
      nextSelectableLoop row (-1) (col : ℤ) fuel = firstSelectableLeftFrom row col := by
  intro fuel
  induction fuel with
  | zero =>
    intro col hlt hle
    have hc : col = 0 := by omega
    subst hc
    rfl
  | succ fuel ih =>
    intro col hlt hle
    rw [nextSelectableLoop]
    cases col with
    | zero =>
      have h01 : ((0 : ℕ) : ℤ) + -1 = -1 := by norm_num
      rw [h01, boxWide_neg row (show (-1 : ℤ) < 0 by norm_num)]
      rw [if_neg (by simp), jsGet_neg _ (show (-1 : ℤ) < 0 by norm_num)]
      rfl
    | succ j =>
      have hc : ((j + 1 : ℕ) : ℤ) + -1 = (j : ℤ) := by push_cast; ring
      rw [hc]
      show _ = firstSelectableLeft row j
      rw [firstSelectableLeft.eq_def]
      by_cases hb : boxWide row (j : ℤ) = true
      · rw [if_pos hb, if_pos hb]
      · rw [if_neg hb, if_neg hb]
        rw [jsGet_natCast, List.getElem?_eq_getElem (by omega)]
        show nextSelectableLoop row (-1) (j : ℤ) fuel = _
        rw [ih j (by omega) (by omega)]
        cases j <;> rfl

lemma nextSelectableInRow_right (cnt : CallNodeTable) (timing : List TimingRow)
    (sel dep : ℕ) (row : TimingRow) (col : ℕ)
    (hdep : cnt.depth[sel]? = some dep)
    (hrow : timing[dep]? = some row)
    (hcol : jsIndexOf row.callNode sel = (col : ℤ)) :
    nextSelectableInRow cnt timing sel 1 = firstSelectableRight row (col + 1) := by
  have hlt : col < row.callNode.length := jsIndexOf_lt_length hcol
  simp only [nextSelectableInRow, hdep, hrow, hcol]
  rw [nextSelectableLoop_one row (row.callNode.length + 1) (col : ℤ) (by omega) (by omega)]
  congr 1

lemma nextSelectableInRow_left (cnt : CallNodeTable) (timing : List TimingRow)
    (sel dep : ℕ) (row : TimingRow) (col : ℕ)
    (hdep : cnt.depth[sel]? = some dep)
    (hrow : timing[dep]? = some row)
    (hcol : jsIndexOf row.callNode sel = (col : ℤ)) :
    nextSelectableInRow cnt timing sel (-1) = firstSelectableLeftFrom row col := by
  have hlt : col < row.callNode.length := jsIndexOf_lt_length hcol
  simp only [nextSelectableInRow, hdep, hrow, hcol]
  exact nextSelectableLoop_negOne row (row.callNode.length + 1) col hlt (by omega)

/-- C1: for an ArrowLeft or ArrowRight key event handled while a call
node is selected, `_handleKeyDown` locates the column of the selected
node in the timing row at the node depth by a linear scan (`indexOf`),
steps column by column in the key direction (`-1` for ArrowLeft, `1` for
ArrowRight), and dispatches one selection change to the first call node
whose box width (end minus start) exceeds `SELECTABLE_THRESHOLD`; when no
such call node exists before the row boundary, nothing is dispatched and
the selection stays unchanged.  The two directional scans are stated
through the spec-side transcriptions `firstSelectableLeftFrom` and
`firstSelectableRight`, and a `none` movement result dispatches the empty
action list (see `dispatchSelection`). -/
theorem handleKeyDown_arrowLeftRight (p : FlameGraphProps) (sel dep : ℕ)
    (row : TimingRow) (col : ℕ)
    (hsel : p.selectedCallNodeIndex = some sel)
    (hdep : p.callNodeTable.depth[sel]? = some dep)
    (hrow : p.flameGraphTiming[dep]? = some row)
    (hcol : jsIndexOf row.callNode sel = (col : ℤ)) :
    handleKeyDown p ("ArrowLeft") = dispatchSelection p (firstSelectableLeftFrom row col) ∧
    handleKeyDown p ("ArrowRight") = dispatchSelection p (firstSelectableRight row (col + 1)) := by
  have hl := nextSelectableInRow_left p.callNodeTable p.flameGraphTiming sel dep row col
    hdep hrow hcol
  have hr := nextSelectableInRow_right p.callNodeTable p.flameGraphTiming sel dep row col
    hdep hrow hcol
  constructor
  · simp [handleKeyDown, isArrowKey, hsel, hl]
    cases firstSelectableLeftFrom row col <;> simp [dispatchSelection]
  · simp [handleKeyDown, isArrowKey, hsel, hr]
    cases firstSelectableRight row (col + 1) <;> simp [dispatchSelection]

/-- Witness for C1 on the fixture: from selected node 1 (leftmost box of
row 1) ArrowLeft finds nothing, ArrowRight selects node 2 and dispatches
its path. -/
theorem handleKeyDown_arrowLeftRight_witness :
    handleKeyDown props0 ("ArrowLeft") = [] ∧
    handleKeyDown props0 ("ArrowRight") = [Action.changeSelectedCallNode 7 [10, 12]] := by
  obtain ⟨h1, h2⟩ := handleKeyDown_arrowLeftRight props0 1 1 row1 0 rfl rfl rfl (by decide)
  constructor
  · rw [h1]
    rfl
  · rw [h2]
    have hw : ((1000 : ℚ))⁻¹ < 1 - 2⁻¹ := by norm_num
    simp [firstSelectableRight, boxWide, jsGet, row1, SELECTABLE_THRESHOLD, dispatchSelection,
      props0, cnt0, getCallNodePathFromIndex, callNodePathAux, hw]

/-- C10: the do/while scan loop of `_nextSelectableInRow` terminates for
either direction: starting from the column of the starting call node, the
column index changes by the fixed direction each iteration, so the loop
reaches its final value within the length of the callNode array of the
row — the fuelled loop evaluated with any fuel of at least that length
already equals the function result. -/
theorem nextSelectableInRow_terminates (cnt : CallNodeTable) (timing : List TimingRow)
    (sel dep : ℕ) (row : TimingRow) (col : ℕ) (direction : ℤ) (fuel : ℕ)
    (hdep : cnt.depth[sel]? = some dep)
    (hrow : timing[dep]? = some row)
    (hcol : jsIndexOf row.callNode sel = (col : ℤ))
    (hdir : direction = 1 ∨ direction = -1)
    (hfuel : row.callNode.length ≤ fuel) :
    nextSelectableInRow cnt timing sel direction =
      nextSelectableLoop row direction (col : ℤ) fuel := by
  have hlt : col < row.callNode.length := jsIndexOf_lt_length hcol
  rcases hdir with rfl | rfl
  · rw [nextSelectableInRow_right cnt timing sel dep row col hdep hrow hcol]
    rw [nextSelectableLoop_one row fuel (col : ℤ) (by omega) (by omega)]
    congr 1
  · rw [nextSelectableInRow_left cnt timing sel dep row col hdep hrow hcol]
    exact (nextSelectableLoop_negOne row fuel col hlt (by omega)).symm

/-- Witness for C10 on the fixture: from node 1 going right, fuel equal
to the row length (2) already yields the function result, which is
node 2. -/
theorem nextSelectableInRow_terminates_witness :
    nextSelectableInRow cnt0 timing0 1 1 = nextSelectableLoop row1 1 ((0 : ℕ) : ℤ) 2 ∧
    nextSelectableLoop row1 1 ((0 : ℕ) : ℤ) 2 = some 2 := by
  constructor
  · exact nextSelectableInRow_terminates cnt0 timing0 1 1 row1 0 1 2 rfl rfl (by decide)
      (Or.inl rfl) (by decide)
  · have hw : ((1000 : ℚ))⁻¹ < 1 - 2⁻¹ := by norm_num
    simp [nextSelectableLoop, boxWide, jsGet, row1, SELECTABLE_THRESHOLD, hw]

/-- C2: for an ArrowUp key event handled while a call node is selected,
`_handleKeyDown` takes the first element of the call tree children of the
selected node (per the external call tree contract, the children come
sorted by descending total time, so the first is the widest; that
ordering is a property of the out-of-fragment call tree and is recorded
here only in the `CallTree` field documentation) and dispatches a
selection change to it exactly when that child exists and `_wideEnough`
holds of it; the last conjunct characterizes `_wideEnough` as the box
width (end minus start at the column of the node in its depth row)
exceeding `SELECTABLE_THRESHOLD`. -/
theorem handleKeyDown_arrowUp (p : FlameGraphProps) (sel : ℕ)
    (hsel : p.selectedCallNodeIndex = some sel) :
    (p.callTree.getChildren sel = [] → handleKeyDown p ("ArrowUp") = []) ∧
    (∀ c cs, p.callTree.getChildren sel = c :: cs →
      ((wideEnough p.callNodeTable p.flameGraphTiming c = true →
          handleKeyDown p ("ArrowUp") =
            [Action.changeSelectedCallNode p.threadsKey
              (getCallNodePathFromIndex (c : ℤ) p.callNodeTable)]) ∧
        (wideEnough p.callNodeTable p.flameGraphTiming c = false →
          handleKeyDown p ("ArrowUp") = []))) ∧
    (∀ (c dep : ℕ) (row : TimingRow) (col : ℕ) (e s : ℚ),
      p.callNodeTable.depth[c]? = some dep →
      p.flameGraphTiming[dep]? = some row →
      jsIndexOf row.callNode c = (col : ℤ) →
      row.endCol[col]? = some e →
      row.start[col]? = some s →
      (wideEnough p.callNodeTable p.flameGraphTiming c = true ↔
        e - s > SELECTABLE_THRESHOLD)) := by
  refine ⟨?_, ?_, ?_⟩
  · intro h
    simp [handleKeyDown, isArrowKey, hsel, h]
  · intro c cs h
    constructor
    · intro hwide
      simp [handleKeyDown, isArrowKey, hsel, h, hwide]
    · intro hwide
      simp [handleKeyDown, isArrowKey, hsel, h, hwide]
  · intro c dep row col e s hdep hrow hcol he hs
    simp only [wideEnough, hdep, hrow, hcol, boxWide, jsGet_natCast, he, hs]
    simp [gt_iff_lt]

/-- Witness for C2 on the fixture: with the root selected, its first
child (node 1, the wider one) has a wide enough box and gets selected. -/
theorem handleKeyDown_arrowUp_witness :
    handleKeyDown propsRoot ("ArrowUp") = [Action.changeSelectedCallNode 7 [10, 11]] := by
  have hw : ((1000 : ℚ))⁻¹ < 2⁻¹ := by norm_num
  have hwide : wideEnough propsRoot.callNodeTable propsRoot.flameGraphTiming 1 = true := by
    simp [propsRoot, props0, wideEnough, cnt0, timing0, row0, row1, jsIndexOf, jsGet,
      boxWide, SELECTABLE_THRESHOLD, hw]
  have h := ((handleKeyDown_arrowUp propsRoot 0 rfl).2.1 1 [2] rfl).1 hwide
  rw [h]
  simp [propsRoot, props0, cnt0, getCallNodePathFromIndex, callNodePathAux]

/-- C3: for an ArrowDown key event handled while a call node is selected,
`_handleKeyDown` reads the parent pointer of the selected node from the
call node table and dispatches a selection change to the parent exactly
when the pointer is not `-1`; at a root (pointer `-1`) nothing is
dispatched and the selection stays unchanged. -/
theorem handleKeyDown_arrowDown (p : FlameGraphProps) (sel : ℕ) (parent : ℤ)
    (hsel : p.selectedCallNodeIndex = some sel)
    (hpar : p.callNodeTable.parentCol[sel]? = some parent) :
    (parent ≠ -1 → handleKeyDown p ("ArrowDown") =
      [Action.changeSelectedCallNode p.threadsKey
        (getCallNodePathFromIndex parent p.callNodeTable)]) ∧
    (parent = -1 → handleKeyDown p ("ArrowDown") = []) := by
  constructor
  · intro h
    simp [handleKeyDown, isArrowKey, hsel, hpar, h]
  · intro h
    subst h
    simp [handleKeyDown, isArrowKey, hsel, hpar]

/-- Witness for C3 on the fixture: node 1 has parent 0, so ArrowDown
selects the root; separately, at the root itself (parent `-1`) nothing is
dispatched. -/
theorem handleKeyDown_arrowDown_witness :
    handleKeyDown props0 ("ArrowDown") = [Action.changeSelectedCallNode 7 [10]] ∧
    handleKeyDown propsRoot ("ArrowDown") = [] := by
  constructor
  · have h := (handleKeyDown_arrowDown props0 1 0 rfl rfl).1 (by decide)
    rw [h]
    simp [props0, cnt0, getCallNodePathFromIndex, callNodePathAux]
  · exact (handleKeyDown_arrowDown propsRoot 0 (-1) rfl (by decide)).2 rfl

/-- C8: for any arrow key handled while no call node is selected,
`_handleKeyDown` dispatches one selection change to the path of call node
index 0 (the root), independent of which arrow key was pressed, and does
no direction-specific movement. -/
theorem handleKeyDown_arrowNoSelection (p : FlameGraphProps) (key : String)
    (hk : isArrowKey key = true) (hsel : p.selectedCallNodeIndex = none) :
    handleKeyDown p key =
      [Action.changeSelectedCallNode p.threadsKey
        (getCallNodePathFromIndex 0 p.callNodeTable)] := by
  simp [handleKeyDown, hk, hsel]

/-- Witness for C8 on the fixture: with no selection, ArrowLeft selects
the root path. -/
theorem handleKeyDown_arrowNoSelection_witness :
    handleKeyDown propsNull ("ArrowLeft") = [Action.changeSelectedCallNode 7 [10]] := by
  have h := handleKeyDown_arrowNoSelection propsNull ("ArrowLeft") (by decide) rfl
  rw [h]
  simp [propsNull, props0, cnt0, getCallNodePathFromIndex, callNodePathAux]

/-- Counterexample to C4 as stated: the key event with key `0` (not one
of the recognized keys) handled with call node 1 selected dispatches only
the transform-shortcut forwarding action and logs no unknown-key error,
whereas the claim requires an unknown-key error to be logged for every
handled key event with an unrecognized key. -/
theorem handleKeyDown_unknownKey_counterexample :
    handleKeyDown props0 ("0") = [Action.handleCallNodeTransformShortcut ("0") 7 1] ∧
    (handleKeyDown props0 ("0")).any isUnknownKeyErrorAction = false := by
  constructor <;>
    simp [handleKeyDown, isArrowKey, props0, keyDownTargetNode, isUnknownKeyErrorAction]

/-- C4 amended: the unknown-key `console.error` sits in the default
branch of the switch inside the arrow-key block, so it could fire only
for a key that passes the arrow-key membership test yet matches no switch
case; the switch covers all four arrow keys, so no handled key event ever
logs an unknown-key error — non-arrow keys are routed to the
Enter/transform-shortcut path without logging. -/
theorem handleKeyDown_neverLogsUnknownKey (p : FlameGraphProps) (key : String) :
    (handleKeyDown p key).any isUnknownKeyErrorAction = false := by
  unfold handleKeyDown
  by_cases ha : isArrowKey key = true
  · rw [if_pos ha]
    have hk : key = "ArrowDown" ∨ key = "ArrowUp" ∨ key = "ArrowLeft" ∨ key = "ArrowRight" := by
      simpa [isArrowKey] using ha
    cases p.selectedCallNodeIndex with
    | none => simp [isUnknownKeyErrorAction]
    | some sel =>
      rcases hk with h | h | h | h <;> subst h <;> simp [isUnknownKeyErrorAction] <;>
        split <;> simp [isUnknownKeyErrorAction]
  · rw [if_neg ha]
    cases keyDownTargetNode p with
    | none => simp
    | some n =>
      by_cases he : key = "Enter"
      · simp [he, onCallNodeEnterOrDoubleClick, isUnknownKeyErrorAction]
      · simp [he, isUnknownKeyErrorAction]

/-- C5: on a non-arrow key event, the null-selection guard holds: when
both the selected and the right-clicked call node indices are null the
handler dispatches no action at all; and when the right-clicked index is
present it takes precedence over the selected index as the target node,
the output being the Enter bottom-box action or the transform-shortcut
forwarding for that node regardless of the selected index. -/
theorem handleKeyDown_nullGuard (p : FlameGraphProps) (key : String)
    (hk : isArrowKey key = false) :
    (p.selectedCallNodeIndex = none → p.rightClickedCallNodeIndex = none →
      handleKeyDown p key = []) ∧
    (∀ r, p.rightClickedCallNodeIndex = some r →
      handleKeyDown p key =
        if key = "Enter" then
          [Action.updateBottomBoxContentsAndMaybeOpen ("flame-graph")
            (p.callTree.getBottomBoxInfoForCallNode r)]
        else [Action.handleCallNodeTransformShortcut key p.threadsKey r]) := by
  constructor
  · intro h1 h2
    simp [handleKeyDown, hk, keyDownTargetNode, h1, h2]
  · intro r hr
    by_cases he : key = "Enter"
    · subst he
      simp [handleKeyDown, isArrowKey, keyDownTargetNode, hr, onCallNodeEnterOrDoubleClick]
    · simp [handleKeyDown, hk, keyDownTargetNode, hr, he, onCallNodeEnterOrDoubleClick]

/-- Witness for C5 on the fixture: key `q` dispatches nothing when both
indices are null, and targets the right-clicked node 2 (although node 1
is selected) when one is present. -/
theorem handleKeyDown_nullGuard_witness :
    handleKeyDown propsNull ("q") = [] ∧
    handleKeyDown propsRight ("q") = [Action.handleCallNodeTransformShortcut ("q") 7 2] := by
  constructor
  · exact (handleKeyDown_nullGuard propsNull ("q") (by decide)).1 rfl rfl
  · have h := (handleKeyDown_nullGuard propsRight ("q") (by decide)).2 2 rfl
    rw [h]
    simp [propsRight, props0]

/-- C6: `_onCallNodeEnterOrDoubleClick` (wired both to the Enter key and
to canvas double click) emits for a non-null call node index exactly one
open-bottom-box action tagged with source `flame-graph` and carrying the
bottom box info that the call tree computes for that node, and emits
nothing for a null index; the Enter branch of `_handleKeyDown` emits that
same single action for the target node. -/
theorem openBottomBoxOnEnterOrDoubleClick (t : CallTree) (c : ℕ)
    (p : FlameGraphProps) (n : ℕ) (hn : keyDownTargetNode p = some n) :
    onCallNodeEnterOrDoubleClick t (some c) =
      [Action.updateBottomBoxContentsAndMaybeOpen ("flame-graph")
        (t.getBottomBoxInfoForCallNode c)] ∧
    onCallNodeEnterOrDoubleClick t none = [] ∧
    handleKeyDown p ("Enter") =
      [Action.updateBottomBoxContentsAndMaybeOpen ("flame-graph")
        (p.callTree.getBottomBoxInfoForCallNode n)] := by
  refine ⟨rfl, rfl, ?_⟩
  simp [handleKeyDown, isArrowKey, hn, onCallNodeEnterOrDoubleClick]

/-- Witness for C6 on the fixture: Enter with right-clicked node 2 opens
the bottom box with the info of node 2. -/
theorem openBottomBoxOnEnterOrDoubleClick_witness :
    handleKeyDown propsRight ("Enter") =
      [Action.updateBottomBoxContentsAndMaybeOpen ("flame-graph") 102] := by
  have h := (openBottomBoxOnEnterOrDoubleClick callTree0 5 propsRight 2 rfl).2.2
  rw [h]
  simp [propsRight, props0, callTree0]

/-- C7: the per-sample height function of `ThreadStackGraph` implements
the sample-to-call-node mapping as an option: for an in-bounds sample
index it returns null exactly when the entry of the sample in
`sampleCallNodes` is null, and otherwise returns the depth recorded in
the call node table for the call node of the sample. -/
theorem heightFunction_spec (cnt : CallNodeTable) (sampleCallNodes : List (Option ℕ))
    (i : ℕ) (e : Option ℕ)
    (hi : sampleCallNodes[i]? = some e)
    (hv : ∀ c, e = some c → c < cnt.depth.length) :
    (heightFunction cnt sampleCallNodes i = none ↔ e = none) ∧
    (∀ c, e = some c → ∃ d, cnt.depth[c]? = some d ∧
      heightFunction cnt sampleCallNodes i = some d) := by
  cases e with
  | none =>
    constructor
    · simp [heightFunction, hi]
    · intro c hc
      cases hc
  | some c =>
    have hd : c < cnt.depth.length := hv c rfl
    constructor
    · simp [heightFunction, hi, List.getElem?_eq_getElem hd]
    · intro c2 hc2
      cases hc2
      exact ⟨cnt.depth[c], List.getElem?_eq_getElem hd,
        by simp [heightFunction, hi, List.getElem?_eq_getElem hd]⟩

/-- Witness for C7 on the fixture: sample 0 maps to call node 2 of depth
1, sample 1 has a null call node and a null height. -/
theorem heightFunction_spec_witness :
    heightFunction cnt0 sampleCallNodes0 0 = some 1 ∧
    heightFunction cnt0 sampleCallNodes0 1 = none := by
  constructor
  · obtain ⟨d, hd, hh⟩ := (heightFunction_spec cnt0 sampleCallNodes0 0 (some 2) rfl
      (by intro c hc; cases hc; decide)).2 2 rfl
    rw [hh]
    have hv : cnt0.depth[2]? = some 1 := rfl
    rw [hv] at hd
    injection hd with h
    rw [← h]
  · exact ((heightFunction_spec cnt0 sampleCallNodes0 1 none rfl
      (by intro c hc; cases hc)).1).mpr rfl

lemma foldlMax_spec (l : List ℕ) : ∀ (a : ℕ),
    a ≤ l.foldl (fun m d => if d > m then d else m) a ∧
    (∀ d ∈ l, d ≤ l.foldl (fun m d => if d > m then d else m) a) ∧
    (l.foldl (fun m d => if d > m then d else m) a = a ∨
      l.foldl (fun m d => if d > m then d else m) a ∈ l) := by
  induction l with
  | nil =>
    intro a
    simp
  | cons b t ih =>
    intro a
    simp only [List.foldl_cons]
    obtain ⟨h1, h2, h3⟩ := ih (if b > a then b else a)
    refine ⟨le_trans (by split <;> omega) h1, ?_, ?_⟩
    · intro d hd
      rcases List.mem_cons.mp hd with rfl | hd2
      · exact le_trans (by split <;> omega) h1
      · exact h2 d hd2
    · rcases h3 with h | h
      · rw [h]
        by_cases hba : b > a
        · rw [if_pos hba]
          exact Or.inr (List.mem_cons_self b t)
        · rw [if_neg hba]
          exact Or.inl rfl
      · exact Or.inr (List.mem_cons_of_mem b h)

/-- C9: the `maxValue` that `ThreadStackGraph.render` passes to
`ThreadHeightGraph` equals the maximum entry of the depth column of the
call node table (it bounds every entry and is itself an entry when the
column is nonempty), and equals 0 when the column is empty. -/
theorem stackGraphMaxValue_spec (cnt : CallNodeTable) :
    (cnt.depth = [] → stackGraphMaxValue cnt = 0) ∧
    (∀ d ∈ cnt.depth, d ≤ stackGraphMaxValue cnt) ∧
    (cnt.depth ≠ [] → stackGraphMaxValue cnt ∈ cnt.depth) := by
  have hdef : stackGraphMaxValue cnt =
      cnt.depth.foldl (fun m d => if d > m then d else m) 0 := rfl
  obtain ⟨h1, h2, h3⟩ := foldlMax_spec cnt.depth 0
  rw [hdef]
  refine ⟨?_, h2, ?_⟩
  · intro hnil
    rw [hnil]
    rfl
  · intro hne
    rcases h3 with hz | hmem
    · rw [hz]
      cases hd : cnt.depth with
      | nil => exact absurd hd hne
      | cons b t =>
        have hb := h2 b (hd ▸ List.mem_cons_self b t)
        rw [hz] at hb
        have hb0 : b = 0 := by omega
        rw [← hb0]
        exact List.mem_cons_self b t
    · exact hmem

/-- Witness for C9 on the fixture: the maximum depth is 1 and it occurs
in the depth column. -/
theorem stackGraphMaxValue_spec_witness :
    stackGraphMaxValue cnt0 = 1 ∧ stackGraphMaxValue cnt0 ∈ cnt0.depth := by
  have h := (stackGraphMaxValue_spec cnt0).2.2 (by decide)
  exact ⟨by decide, h⟩

end Profiler
